import Mathlib

/-!
Formal model of the raytracer in src/main.cc: the 3-vector type, the shape
interface, closest-hit resolution, the recursive shading kernel, the row
partitioning of the parallel frame renderer and a worker's per-pixel loop.
Floating-point arithmetic is modelled over the reals.
-/

noncomputable section

namespace Raytracer

/-- Three-component vector of the source's vec type (vec.hh), with float
arithmetic modelled over the reals. -/
@[ext]
structure vec where
  x : ℝ
  y : ℝ
  z : ℝ

instance : Zero vec := ⟨⟨0, 0, 0⟩⟩

instance : Add vec := ⟨fun a b => ⟨a.x + b.x, a.y + b.y, a.z + b.z⟩⟩

instance : Sub vec := ⟨fun a b => ⟨a.x - b.x, a.y - b.y, a.z - b.z⟩⟩

instance : HMul vec ℝ vec := ⟨fun a k => ⟨a.x * k, a.y * k, a.z * k⟩⟩

instance : HDiv vec ℝ vec := ⟨fun a k => ⟨a.x / k, a.y / k, a.z / k⟩⟩

@[simp]
theorem vec.zero_def : (0 : vec) = ⟨0, 0, 0⟩ := rfl

@[simp]
theorem vec.add_def (a b : vec) : a + b = ⟨a.x + b.x, a.y + b.y, a.z + b.z⟩ := rfl

@[simp]
theorem vec.sub_def (a b : vec) : a - b = ⟨a.x - b.x, a.y - b.y, a.z - b.z⟩ := rfl

@[simp]
theorem vec.mul_def (a : vec) (k : ℝ) : a * k = ⟨a.x * k, a.y * k, a.z * k⟩ := rfl

@[simp]
theorem vec.div_def (a : vec) (k : ℝ) : a / k = ⟨a.x / k, a.y / k, a.z / k⟩ := rfl

/-- Dot product of two vectors. -/
def vec.dot (a b : vec) : ℝ := a.x * b.x + a.y * b.y + a.z * b.z

/-- Componentwise (Hadamard) product. -/
def vec.hadamard (a b : vec) : vec := ⟨a.x * b.x, a.y * b.y, a.z * b.z⟩

/-- Euclidean length of a vector. -/
def vec.length (v : vec) : ℝ := Real.sqrt (v.dot v)

/-- The vector scaled to unit length (vec::normalized). -/
def vec.normalized (v : vec) : vec := v / v.length

/-- Modelled from the spec: rotation of a vector about the vertical (y) axis
(vec::yrotated of the missing vec.hh; spec section 2 names a rotation about a
vertical axis). The exact trigonometric convention is irrelevant to the claims
settled over it. -/
def vec.yrotated (v : vec) (angle : ℝ) : vec :=
  ⟨v.x * Real.cos angle + v.z * Real.sin angle, v.y,
   v.z * Real.cos angle - v.x * Real.sin angle⟩

/-- Modelled from the spec: the shape capability contract of the missing
geom.hh (spec sections 3 and 4.1) — ray intersection (negative result = MISS),
surface normal, surface color at a point, and the material coefficients read
by the shading kernel.  The specular exponent is read through an int cast in
the source, hence a natural number here. -/
structure shape where
  intersection : vec → vec → ℝ
  normal : vec → vec
  get_color : vec → vec
  get_reflectivity : ℝ
  get_diffusion : ℝ
  get_spec_intensity : ℝ
  get_spec_density : ℕ

/-- AMBIENT rendering constant of main.cc. -/
def AMBIENT : ℝ := 0.3

/-- OVERSAMPLE rendering constant of main.cc. -/
def OVERSAMPLE : ℕ := 2

/-- MAX_REFLECTIONS rendering constant of main.cc. -/
def MAX_REFLECTIONS : ℕ := 10

/-- EPSILON rendering constant of main.cc. -/
def EPSILON : ℝ := 0.03

/-- NUM_THREADS constant of main.cc. -/
def NUM_THREADS : ℕ := 4

/-- Screen WIDTH constant of main.cc. -/
def WIDTH : ℕ := 640

/-- Screen HEIGHT constant of main.cc. -/
def HEIGHT : ℕ := 480

/-- The replacement condition of the closest-hit loop: with no current best
any candidate qualifies, otherwise only a strictly smaller distance does
(the `distance < intersect_distance || intersected == NULL` disjunct). -/
def better (d : ℝ) : Option (shape × ℝ) → Prop
  | none => True
  | some (_, best) => d < best

open Classical in
/-- One iteration of the closest-hit loop of raytrace (main.cc lines 148-154):
update the accumulator when the candidate distance is non-negative and beats
the current best. -/
def hitStep (o dir : vec) (acc : Option (shape × ℝ)) (s : shape) :
    Option (shape × ℝ) :=
  if 0 ≤ s.intersection o dir ∧ better (s.intersection o dir) acc then
    some (s, s.intersection o dir)
  else acc

/-- Closest-hit resolution: fold the update step over the scene in insertion
order, starting from no intersection. -/
def closestHit (scene : List shape) (o dir : vec) : Option (shape × ℝ) :=
  scene.foldl (hitStep o dir) none

/-- The shadow test of the light loop (main.cc lines 189-195): some shape
intersects the shadow ray at a non-negative distance. -/
def inShadow (scene : List shape) (p sd : vec) : Prop :=
  ∃ s ∈ scene, 0 ≤ s.intersection p sd

open Classical in
/-- The contribution one light adds to the result inside the light loop of
raytrace (main.cc lines 184-216): zero when the shadow ray hits the scene,
otherwise the diffuse term tinted by the shape color plus the white specular
term.  Note the source clamps after exponentiating:
fmax(0, pow(n.dot(bisector), e)). -/
def lightContrib (scene : List shape) (s : shape) (dir n p light : vec) : vec :=
  let shadow_dir := (light - p).normalized
  if inShadow scene p shadow_dir then 0
  else
    let diffuse_intensity := s.get_diffusion * max 0 (n.dot shadow_dir)
    let bisector := (shadow_dir - dir).normalized
    let specular_intensity :=
      s.get_spec_intensity * max 0 (n.dot bisector ^ s.get_spec_density)
    s.get_color p * diffuse_intensity + (⟨1, 1, 1⟩ : vec) * specular_intensity

/-- The recursive shading kernel raytrace of main.cc (lines 139-220):
normalize the direction, resolve the closest hit, return the flat ambient
color on a miss, otherwise accumulate the ambient base color, the recursive
reflection (only below the depth bound) and the per-light contributions. -/
def raytrace (scene : List shape) (lights : List vec) (origin dir0 : vec)
    (reflections : ℕ) : vec :=
  let dir := dir0.normalized
  match closestHit scene origin dir with
  | none => ⟨AMBIENT, AMBIENT, AMBIENT⟩
  | some (s, t) =>
    let intersection := origin + dir * (t - EPSILON)
    let base := s.get_color intersection * AMBIENT
    if h : reflections < MAX_REFLECTIONS then
      let n := s.normal intersection
      let new_dir := dir - n * (2 : ℝ) * n.dot dir
      let reflected := raytrace scene lights intersection new_dir (reflections + 1)
      let afterReflect :=
        base + (reflected.hadamard (s.get_color intersection)) * s.get_reflectivity
      lights.foldl (fun acc light => acc + lightContrib scene s dir n intersection light)
        afterReflect
    else base
termination_by MAX_REFLECTIONS - reflections
decreasing_by simp_wf; omega

/-- The number of invocations of raytrace (the initial call included) incurred
by one call: it recurses exactly when the ray hits a shape and the depth is
below MAX_REFLECTIONS, mirroring the structure of raytrace. -/
def raytraceCalls (scene : List shape) (lights : List vec) (origin dir0 : vec)
    (reflections : ℕ) : ℕ :=
  let dir := dir0.normalized
  match closestHit scene origin dir with
  | none => 1
  | some (s, t) =>
    let intersection := origin + dir * (t - EPSILON)
    if h : reflections < MAX_REFLECTIONS then
      let n := s.normal intersection
      let new_dir := dir - n * (2 : ℝ) * n.dot dir
      1 + raytraceCalls scene lights intersection new_dir (reflections + 1)
    else 1
termination_by MAX_REFLECTIONS - reflections
decreasing_by simp_wf; omega

/-! ### Basic lemmas about the embedding -/

theorem vec.add_zero_v (a : vec) : a + 0 = a := by ext <;> simp

theorem vec.add_assoc_v (a b c : vec) : a + b + c = a + (b + c) := by
  ext <;> simp <;> ring

theorem vec.dot_self_nonneg (v : vec) : 0 ≤ v.dot v := by
  unfold vec.dot; ring_nf; positivity

/-- Sum of a list of vectors. -/
def vecSum : List vec → vec
  | [] => 0
  | v :: t => v + vecSum t

theorem foldl_add_eq (f : vec → vec) (L : List vec) (init : vec) :
    L.foldl (fun acc l => acc + f l) init = init + vecSum (L.map f) := by
  induction L generalizing init with
  | nil => simp [vecSum, vec.add_zero_v]
  | cons a l ih =>
    simp only [List.foldl_cons, List.map_cons, vecSum]
    rw [ih, vec.add_assoc_v]

theorem closestHit_eq_none (scene : List shape) (o dir : vec)
    (h : ∀ s ∈ scene, s.intersection o dir < 0) :
    closestHit scene o dir = none := by
  unfold closestHit
  induction scene with
  | nil => rfl
  | cons a l ih =>
    have ha : a.intersection o dir < 0 := h a (List.mem_cons_self a l)
    have hcond : ¬(0 ≤ a.intersection o dir ∧ better (a.intersection o dir) none) :=
      fun hc => absurd hc.1 (not_le.mpr ha)
    simp only [List.foldl_cons, hitStep, if_neg hcond]
    exact ih fun s hs => h s (List.mem_cons_of_mem a hs)

/-- Unfolding raytrace at a hit when the depth bound is reached: only the
ambient base color survives. -/
theorem raytrace_base_of_bound (scene : List shape) (lights : List vec)
    (o d0 : vec) (r : ℕ) (s : shape) (t : ℝ)
    (hr : MAX_REFLECTIONS ≤ r)
    (hc : closestHit scene o d0.normalized = some (s, t)) :
    raytrace scene lights o d0 r =
      s.get_color (o + d0.normalized * (t - EPSILON)) * AMBIENT := by
  rw [raytrace]
  simp only [hc]
  rw [dif_neg (by omega : ¬ r < MAX_REFLECTIONS)]

/-- Unfolding raytrace at a hit below the depth bound. -/
theorem raytrace_hit_rec (scene : List shape) (lights : List vec)
    (o d0 : vec) (r : ℕ) (s : shape) (t : ℝ)
    (hr : r < MAX_REFLECTIONS)
    (hc : closestHit scene o d0.normalized = some (s, t)) :
    raytrace scene lights o d0 r =
      lights.foldl
        (fun acc light => acc + lightContrib scene s d0.normalized
          (s.normal (o + d0.normalized * (t - EPSILON)))
          (o + d0.normalized * (t - EPSILON)) light)
        (s.get_color (o + d0.normalized * (t - EPSILON)) * AMBIENT +
          ((raytrace scene lights (o + d0.normalized * (t - EPSILON))
              (d0.normalized -
                s.normal (o + d0.normalized * (t - EPSILON)) * (2 : ℝ) *
                  (s.normal (o + d0.normalized * (t - EPSILON))).dot d0.normalized)
              (r + 1)).hadamard
            (s.get_color (o + d0.normalized * (t - EPSILON)))) *
            s.get_reflectivity) := by
  rw [raytrace]
  simp only [hc]
  rw [dif_pos hr]

theorem raytraceCalls_le_aux :
    ∀ (k : ℕ) (scene : List shape) (lights : List vec) (o d0 : vec) (r : ℕ),
      MAX_REFLECTIONS - r ≤ k → raytraceCalls scene lights o d0 r ≤ k + 1 := by
  intro k
  induction k with
  | zero =>
    intro scene lights o d0 r hk
    rw [raytraceCalls]
    rcases hc : closestHit scene o d0.normalized with _ | ⟨s, t⟩ <;> simp only [hc]
    · omega
    · rw [dif_neg (by omega : ¬ r < MAX_REFLECTIONS)]
  | succ k ih =>
    intro scene lights o d0 r hk
    rw [raytraceCalls]
    rcases hc : closestHit scene o d0.normalized with _ | ⟨s, t⟩ <;> simp only [hc]
    · omega
    · by_cases h : r < MAX_REFLECTIONS
      · rw [dif_pos h]
        have hrec := ih scene lights (o + d0.normalized * (t - EPSILON))
          (d0.normalized -
            s.normal (o + d0.normalized * (t - EPSILON)) * (2 : ℝ) *
              (s.normal (o + d0.normalized * (t - EPSILON))).dot d0.normalized)
          (r + 1) (by omega)
        omega
      · rw [dif_neg h]
        omega

/-- Concrete shape used by witnesses: every ray hits it at distance 1. -/
def shW : shape := ⟨fun _ _ => 1, fun _ => ⟨0, 1, 0⟩, fun _ => ⟨1, 0, 0⟩, 0, 0, 0, 0⟩

theorem closestHit_shW (o dir : vec) : closestHit [shW] o dir = some (shW, 1) := by
  unfold closestHit
  simp only [List.foldl_cons, List.foldl_nil, hitStep]
  rw [if_pos ⟨by norm_num [shW], trivial⟩]
  rfl

/-! ### Claim theorems -/

/-- C1: for every origin, direction, starting depth and scene (any material
reflectivities included), the recursive kernel performs at most
MAX_REFLECTIONS + 1 invocations of raytrace; the depth bound alone enforces
this. -/
theorem raytrace_depth_bound (scene : List shape) (lights : List vec)
    (o d0 : vec) (r : ℕ) :
    raytraceCalls scene lights o d0 r ≤ MAX_REFLECTIONS + 1 := by
  have h := raytraceCalls_le_aux MAX_REFLECTIONS scene lights o d0 r (by omega)
  omega

/-- C6: when the ray hits a shape and the reflection depth has reached the
bound, raytrace returns only the base contribution: the shape's local color at
the (epsilon-offset) hit point scaled by the ambient factor. -/
theorem raytrace_at_depth_bound (scene : List shape) (lights : List vec)
    (o d0 : vec) (r : ℕ) (s : shape) (t : ℝ)
    (hr : MAX_REFLECTIONS ≤ r)
    (hc : closestHit scene o d0.normalized = some (s, t)) :
    raytrace scene lights o d0 r =
      s.get_color (o + d0.normalized * (t - EPSILON)) * AMBIENT :=
  raytrace_base_of_bound scene lights o d0 r s t hr hc

/-- Witness for C6 at a concrete one-shape scene hit at distance 1. -/
theorem raytrace_at_depth_bound_witness :
    raytrace [shW] [] 0 ⟨0, 0, 1⟩ MAX_REFLECTIONS =
      shW.get_color (0 + (⟨0, 0, 1⟩ : vec).normalized * ((1 : ℝ) - EPSILON)) * AMBIENT :=
  raytrace_at_depth_bound [shW] [] 0 ⟨0, 0, 1⟩ MAX_REFLECTIONS shW 1 (le_refl _)
    (closestHit_shW 0 (⟨0, 0, 1⟩ : vec).normalized)

/-- C7: a ray that intersects no shape (every shape reports a negative
distance for it; in particular any ray in the empty scene) makes raytrace
return exactly the flat ambient color, the ambient level on all three
channels. -/
theorem raytrace_miss_ambient (scene : List shape) (lights : List vec)
    (o d0 : vec) (r : ℕ)
    (h : ∀ s ∈ scene, s.intersection o d0.normalized < 0) :
    raytrace scene lights o d0 r = ⟨AMBIENT, AMBIENT, AMBIENT⟩ := by
  rw [raytrace]
  simp only [closestHit_eq_none scene o d0.normalized h]

theorem vec.length_mul (v : vec) (k : ℝ) (hk : 0 ≤ k) :
    (v * k).length = v.length * k := by
  unfold vec.length vec.dot
  simp only [vec.mul_def]
  rw [show v.x * k * (v.x * k) + v.y * k * (v.y * k) + v.z * k * (v.z * k) =
      (v.x * v.x + v.y * v.y + v.z * v.z) * k ^ 2 by ring]
  rw [Real.sqrt_mul
    (by nlinarith [sq_nonneg v.x, sq_nonneg v.y, sq_nonneg v.z] :
      (0 : ℝ) ≤ v.x * v.x + v.y * v.y + v.z * v.z) (k ^ 2), Real.sqrt_sq hk]

theorem vec.normalized_mul_pos (v : vec) (k : ℝ) (hk : 0 < k) :
    (v * k).normalized = v.normalized := by
  unfold vec.normalized
  rw [vec.length_mul v k hk.le]
  ext <;> simp <;> rw [mul_div_mul_right _ _ (ne_of_gt hk)]

/-- raytrace only consumes its direction argument through its normalization. -/
theorem raytrace_congr_dir (scene : List shape) (lights : List vec)
    (o d1 d2 : vec) (r : ℕ) (h : d1.normalized = d2.normalized) :
    raytrace scene lights o d1 r = raytrace scene lights o d2 r := by
  rw [raytrace]
  conv_rhs => rw [raytrace]
  rw [h]

/-- C10: raytrace normalizes its direction on entry, so its result is
invariant under positive scaling of the input direction. -/
theorem raytrace_scale_invariant (scene : List shape) (lights : List vec)
    (o d : vec) (k : ℝ) (r : ℕ) (hk : 0 < k) (hd : d ≠ 0) :
    raytrace scene lights o (d * k) r = raytrace scene lights o d r :=
  raytrace_congr_dir scene lights o (d * k) d r (vec.normalized_mul_pos d k hk)

/-- Witness for C10: doubling the unit z direction. -/
theorem raytrace_scale_invariant_witness :
    raytrace [] [] 0 ((⟨0, 0, 1⟩ : vec) * (2 : ℝ)) 0 =
      raytrace [] [] 0 (⟨0, 0, 1⟩ : vec) 0 :=
  raytrace_scale_invariant [] [] 0 ⟨0, 0, 1⟩ 2 0 (by norm_num)
    (fun h => one_ne_zero (congrArg vec.z h))

/-- C4: below the depth bound, the result of raytrace is the ambient base
term plus the recursive reflective term plus the sum of the per-light
contributions, and any light whose (epsilon-offset) shadow ray hits the scene
at a non-negative distance contributes exactly zero — so occlusion removes the
diffuse and specular terms of that light while the ambient and reflective
terms are untouched. -/
theorem raytrace_shadowed_light (scene : List shape) (lights : List vec)
    (o d0 : vec) (r : ℕ) (s : shape) (t : ℝ)
    (hr : r < MAX_REFLECTIONS)
    (hc : closestHit scene o d0.normalized = some (s, t)) :
    raytrace scene lights o d0 r =
      s.get_color (o + d0.normalized * (t - EPSILON)) * AMBIENT +
        ((raytrace scene lights (o + d0.normalized * (t - EPSILON))
            (d0.normalized -
              s.normal (o + d0.normalized * (t - EPSILON)) * (2 : ℝ) *
                (s.normal (o + d0.normalized * (t - EPSILON))).dot d0.normalized)
            (r + 1)).hadamard
          (s.get_color (o + d0.normalized * (t - EPSILON)))) * s.get_reflectivity +
        vecSum (lights.map (lightContrib scene s d0.normalized
          (s.normal (o + d0.normalized * (t - EPSILON)))
          (o + d0.normalized * (t - EPSILON)))) ∧
    ∀ light : vec,
      inShadow scene (o + d0.normalized * (t - EPSILON))
          ((light - (o + d0.normalized * (t - EPSILON))).normalized) →
        lightContrib scene s d0.normalized
          (s.normal (o + d0.normalized * (t - EPSILON)))
          (o + d0.normalized * (t - EPSILON)) light = 0 := by
  constructor
  · rw [raytrace_hit_rec scene lights o d0 r s t hr hc, foldl_add_eq]
  · intro light hsh
    unfold lightContrib
    rw [if_pos hsh]

/-- Witness for C4: a one-shape scene whose shape blocks every shadow ray. -/
theorem raytrace_shadowed_light_witness :
    lightContrib [shW] shW (⟨0, 0, 1⟩ : vec).normalized
      (shW.normal (0 + (⟨0, 0, 1⟩ : vec).normalized * ((1 : ℝ) - EPSILON)))
      (0 + (⟨0, 0, 1⟩ : vec).normalized * ((1 : ℝ) - EPSILON)) 0 = 0 :=
  (raytrace_shadowed_light [shW] [] 0 ⟨0, 0, 1⟩ 0 shW 1 (by decide)
      (closestHit_shW 0 (⟨0, 0, 1⟩ : vec).normalized)).2 0
    ⟨shW, List.mem_cons_self shW [], by norm_num [shW]⟩

theorem normalized_z_neg_one : ((⟨0, 0, -1⟩ : vec)).normalized = ⟨0, 0, -1⟩ := by
  unfold vec.normalized vec.length vec.dot
  rw [show (0 : ℝ) * 0 + 0 * 0 + -1 * -1 = 1 by norm_num, Real.sqrt_one]
  ext <;> simp

theorem normalized_z_neg_two : ((⟨0, 0, -2⟩ : vec)).normalized = ⟨0, 0, -1⟩ := by
  unfold vec.normalized vec.length vec.dot
  rw [show (0 : ℝ) * 0 + 0 * 0 + -2 * -2 = 2 ^ 2 by norm_num,
    Real.sqrt_sq (by norm_num : (0 : ℝ) ≤ 2)]
  ext <;> norm_num

/-- Concrete shape for the specular claim: unit specular intensity, specular
exponent 2, black surface, no diffusion, and it never intersects a ray. -/
def sC : shape := ⟨fun _ _ => -1, fun _ => ⟨0, 0, 1⟩, fun _ => 0, 0, 0, 1, 2⟩

/-- Counterexample to C5 as stated: at an unoccluded light whose half vector
makes a negative dot product with the normal and with specular exponent 2, the
code (clamping after exponentiation) adds the full white specular term, while
the claimed formula (clamp inside the power) predicts zero. -/
theorem specular_clamp_counterexample :
    ¬ inShadow [] (⟨0, 0, 0⟩ : vec)
        (((⟨0, 0, -1⟩ : vec) - (⟨0, 0, 0⟩ : vec)).normalized) ∧
    lightContrib [] sC ⟨0, 0, 1⟩ ⟨0, 0, 1⟩ ⟨0, 0, 0⟩ ⟨0, 0, -1⟩ = ⟨1, 1, 1⟩ ∧
    sC.get_color ⟨0, 0, 0⟩ *
        (sC.get_diffusion *
          max 0 (vec.dot ⟨0, 0, 1⟩
            (((⟨0, 0, -1⟩ : vec) - (⟨0, 0, 0⟩ : vec)).normalized))) +
      (⟨1, 1, 1⟩ : vec) *
        (sC.get_spec_intensity *
          max 0 (vec.dot ⟨0, 0, 1⟩
              ((((⟨0, 0, -1⟩ : vec) - (⟨0, 0, 0⟩ : vec)).normalized -
                (⟨0, 0, 1⟩ : vec)).normalized)) ^ sC.get_spec_density) = 0 ∧
    (⟨1, 1, 1⟩ : vec) ≠ (0 : vec) := by
  have h1 : ((⟨0, 0, -1⟩ : vec) - (⟨0, 0, 0⟩ : vec)) = (⟨0, 0, -1⟩ : vec) := by
    ext <;> simp
  have h3 : ((⟨0, 0, -1⟩ : vec) - (⟨0, 0, 1⟩ : vec)) = (⟨0, 0, -2⟩ : vec) := by
    ext <;> norm_num
  have hsh : ¬ inShadow [] (⟨0, 0, 0⟩ : vec) (⟨0, 0, -1⟩ : vec) := by
    simp [inShadow]
  have hsh2 : ¬ inShadow [] (⟨0, 0, 0⟩ : vec)
      (((⟨0, 0, -1⟩ : vec) - (⟨0, 0, 0⟩ : vec)).normalized) := by
    rw [h1, normalized_z_neg_one]; exact hsh
  refine ⟨hsh2, ?_, ?_, ?_⟩
  · simp only [lightContrib]
    rw [if_neg hsh2]
    simp only [h1, normalized_z_neg_one, h3, normalized_z_neg_two]
    ext <;> simp [sC, vec.dot]
  · rw [h1, normalized_z_neg_one, h3, normalized_z_neg_two]
    ext <;> simp [sC, vec.dot]
  · intro h
    exact one_ne_zero (congrArg vec.x h)

/-- C5 amended: for an unoccluded light, the contribution added to the result
is the diffuse term plus a white specular term equal to the specular intensity
times max(0, (normal dot halfVector)^exponent) — the clamp is applied after
exponentiation, where halfVector is the normalization of (shadow direction
minus view direction). -/
theorem lightContrib_unshadowed (scene : List shape) (s : shape)
    (dir n p light : vec)
    (h : ¬ inShadow scene p ((light - p).normalized)) :
    lightContrib scene s dir n p light =
      s.get_color p * (s.get_diffusion * max 0 (n.dot ((light - p).normalized))) +
      (⟨1, 1, 1⟩ : vec) *
        (s.get_spec_intensity *
          max 0 (n.dot (((light - p).normalized - dir).normalized) ^
            s.get_spec_density)) := by
  unfold lightContrib
  rw [if_neg h]

/-- Witness for the amended C5 at a concrete unoccluded light. -/
theorem lightContrib_unshadowed_witness :
    lightContrib [] sC ⟨0, 0, 1⟩ ⟨0, 0, 1⟩ ⟨0, 0, 0⟩ ⟨0, 0, -1⟩ =
      sC.get_color ⟨0, 0, 0⟩ *
        (sC.get_diffusion *
          max 0 (vec.dot ⟨0, 0, 1⟩
            (((⟨0, 0, -1⟩ : vec) - (⟨0, 0, 0⟩ : vec)).normalized))) +
      (⟨1, 1, 1⟩ : vec) *
        (sC.get_spec_intensity *
          max 0 (vec.dot ⟨0, 0, 1⟩
              ((((⟨0, 0, -1⟩ : vec) - (⟨0, 0, 0⟩ : vec)).normalized -
                (⟨0, 0, 1⟩ : vec)).normalized) ^ sC.get_spec_density)) :=
  lightContrib_unshadowed [] sC ⟨0, 0, 1⟩ ⟨0, 0, 1⟩ ⟨0, 0, 0⟩ ⟨0, 0, -1⟩
    (by rw [show ((⟨0, 0, -1⟩ : vec) - (⟨0, 0, 0⟩ : vec)) = (⟨0, 0, -1⟩ : vec)
          by ext <;> simp, normalized_z_neg_one]
        simp [inShadow])

/-- Invariant of the closest-hit loop from an accumulator holding a
non-negative current best: the loop keeps the accumulator unless a strictly
smaller non-negative distance appears, in which case it ends at the earliest
shape realizing the final (minimal) distance. -/
theorem foldl_hitStep_some (o dir : vec) (l : List shape) :
    ∀ (s0 : shape) (t0 : ℝ), 0 ≤ t0 → ∀ (s : shape) (t : ℝ),
      List.foldl (hitStep o dir) (some (s0, t0)) l = some (s, t) →
      0 ≤ t ∧ t ≤ t0 ∧
        ((s = s0 ∧ t = t0 ∧
            ∀ u ∈ l, 0 ≤ u.intersection o dir → t0 ≤ u.intersection o dir) ∨
         (t < t0 ∧ ∃ i, ∃ hi : i < l.length,
            l.get ⟨i, hi⟩ = s ∧ s.intersection o dir = t ∧
            (∀ j, ∀ hj : j < l.length, j < i →
              (l.get ⟨j, hj⟩).intersection o dir < 0 ∨
                t < (l.get ⟨j, hj⟩).intersection o dir) ∧
            ∀ u ∈ l, 0 ≤ u.intersection o dir → t ≤ u.intersection o dir)) := by
  induction l with
  | nil =>
    intro s0 t0 ht0 s t h
    simp only [List.foldl_nil, Option.some.injEq, Prod.mk.injEq] at h
    exact ⟨h.2 ▸ ht0, le_of_eq h.2.symm,
      Or.inl ⟨h.1.symm, h.2.symm, fun u hu => absurd hu (List.not_mem_nil u)⟩⟩
  | cons u l ih =>
    intro s0 t0 ht0 s t h
    simp only [List.foldl_cons] at h
    by_cases hc : 0 ≤ u.intersection o dir ∧ u.intersection o dir < t0
    · have hstep : hitStep o dir (some (s0, t0)) u = some (u, u.intersection o dir) := by
        rw [hitStep, if_pos ⟨hc.1, hc.2⟩]
      rw [hstep] at h
      obtain ⟨hnn, hle, hbr⟩ := ih u (u.intersection o dir) hc.1 s t h
      refine ⟨hnn, le_trans hle (le_of_lt hc.2),
        Or.inr ⟨lt_of_le_of_lt hle hc.2, ?_⟩⟩
      rcases hbr with ⟨hs, ht, hall⟩ | ⟨hlt, i, hi, hget, hdist, hpre, hall⟩
      · refine ⟨0, Nat.succ_pos _, hs.symm, ?_, ?_, ?_⟩
        · rw [hs]; exact ht.symm
        · intro j hj hjlt; omega
        · intro v hv hvnn
          rcases List.mem_cons.mp hv with rfl | hvl
          · rw [ht]
          · rw [ht]; exact hall v hvl hvnn
      · refine ⟨i + 1, Nat.succ_lt_succ hi, hget, hdist, ?_, ?_⟩
        · intro j hj hjlt
          cases j with
          | zero => exact Or.inr hlt
          | succ j2 => exact hpre j2 (by omega) (by omega)
        · intro v hv hvnn
          rcases List.mem_cons.mp hv with rfl | hvl
          · exact le_of_lt hlt
          · exact hall v hvl hvnn
    · have hstep : hitStep o dir (some (s0, t0)) u = some (s0, t0) := by
        rw [hitStep, if_neg]
        intro hcc
        exact hc ⟨hcc.1, hcc.2⟩
      rw [hstep] at h
      obtain ⟨hnn, hle, hbr⟩ := ih s0 t0 ht0 s t h
      have hcu : 0 ≤ u.intersection o dir → t0 ≤ u.intersection o dir := by
        intro hu
        by_contra hlt2
        exact hc ⟨hu, lt_of_not_le hlt2⟩
      refine ⟨hnn, hle, ?_⟩
      rcases hbr with ⟨hs, ht, hall⟩ | ⟨hlt, i, hi, hget, hdist, hpre, hall⟩
      · refine Or.inl ⟨hs, ht, ?_⟩
        intro v hv hvnn
        rcases List.mem_cons.mp hv with rfl | hvl
        · exact hcu hvnn
        · exact hall v hvl hvnn
      · refine Or.inr ⟨hlt, i + 1, Nat.succ_lt_succ hi, hget, hdist, ?_, ?_⟩
        · intro j hj hjlt
          cases j with
          | zero =>
            by_cases hu : 0 ≤ u.intersection o dir
            · exact Or.inr (lt_of_lt_of_le hlt (hcu hu))
            · exact Or.inl (lt_of_not_le hu)
          | succ j2 => exact hpre j2 (by omega) (by omega)
        · intro v hv hvnn
          rcases List.mem_cons.mp hv with rfl | hvl
          · exact le_trans (le_of_lt hlt) (hcu hvnn)
          · exact hall v hvl hvnn

/-- Characterization of closest-hit resolution: a returned hit has a
non-negative distance that is minimal among all non-negative distances in the
scene, and the returned shape is the earliest one in insertion order to attain
it (every earlier shape misses or lies strictly farther). -/
theorem closestHit_min (scene : List shape) (o dir : vec) (s : shape) (t : ℝ)
    (h : closestHit scene o dir = some (s, t)) :
    0 ≤ t ∧
    (∃ i, ∃ hi : i < scene.length,
      scene.get ⟨i, hi⟩ = s ∧ s.intersection o dir = t ∧
      ∀ j, ∀ hj : j < scene.length, j < i →
        (scene.get ⟨j, hj⟩).intersection o dir < 0 ∨
          t < (scene.get ⟨j, hj⟩).intersection o dir) ∧
    ∀ u ∈ scene, 0 ≤ u.intersection o dir → t ≤ u.intersection o dir := by
  induction scene with
  | nil => exact absurd h (by simp [closestHit])
  | cons u l ih =>
    unfold closestHit at h
    simp only [List.foldl_cons] at h
    by_cases hu : 0 ≤ u.intersection o dir
    · have hstep : hitStep o dir none u = some (u, u.intersection o dir) := by
        rw [hitStep, if_pos ⟨hu, trivial⟩]
      rw [hstep] at h
      obtain ⟨hnn, hle, hbr⟩ := foldl_hitStep_some o dir l u (u.intersection o dir) hu s t h
      rcases hbr with ⟨hs, ht, hall⟩ | ⟨hlt, i, hi, hget, hdist, hpre, hall⟩
      · refine ⟨hnn, ⟨0, Nat.succ_pos _, hs.symm, ?_, ?_⟩, ?_⟩
        · rw [hs]; exact ht.symm
        · intro j hj hjlt; omega
        · intro v hv hvnn
          rcases List.mem_cons.mp hv with rfl | hvl
          · rw [ht]
          · rw [ht]; exact hall v hvl hvnn
      · refine ⟨hnn, ⟨i + 1, Nat.succ_lt_succ hi, hget, hdist, ?_⟩, ?_⟩
        · intro j hj hjlt
          cases j with
          | zero => exact Or.inr hlt
          | succ j2 => exact hpre j2 (by omega) (by omega)
        · intro v hv hvnn
          rcases List.mem_cons.mp hv with rfl | hvl
          · exact le_of_lt hlt
          · exact hall v hvl hvnn
    · have hstep : hitStep o dir none u = none := by
        rw [hitStep, if_neg]
        intro hcc
        exact hu hcc.1
      rw [hstep] at h
      obtain ⟨hnn, ⟨i, hi, hget, hdist, hpre⟩, hall⟩ := ih h
      refine ⟨hnn, ⟨i + 1, Nat.succ_lt_succ hi, hget, hdist, ?_⟩, ?_⟩
      · intro j hj hjlt
        cases j with
        | zero => exact Or.inl (lt_of_not_le hu)
        | succ j2 => exact hpre j2 (by omega) (by omega)
      · intro v hv hvnn
        rcases List.mem_cons.mp hv with rfl | hvl
        · exact absurd hvnn hu
        · exact hall v hvl hvnn

/-- With two shapes tied at a non-negative distance, the loop keeps the
earlier-inserted shape: the later one would need a strictly smaller distance
to replace it. -/
theorem closestHit_pair_tie (o dir : vec) (s1 s2 : shape)
    (h1 : 0 ≤ s1.intersection o dir)
    (heq : s1.intersection o dir = s2.intersection o dir) :
    closestHit [s1, s2] o dir = some (s1, s1.intersection o dir) := by
  unfold closestHit
  simp only [List.foldl_cons, List.foldl_nil]
  have hstep1 : hitStep o dir none s1 = some (s1, s1.intersection o dir) := by
    rw [hitStep, if_pos ⟨h1, trivial⟩]
  rw [hstep1, hitStep, if_neg]
  intro hcc
  have hirr : ¬ s2.intersection o dir < s1.intersection o dir := by
    rw [← heq]; exact lt_irrefl _
  exact hirr hcc.2

/-- Second concrete shape for tie-break witnesses: also hit at distance 1 by
every ray, but with a different color. -/
def shW2 : shape := ⟨fun _ _ => 1, fun _ => ⟨0, 1, 0⟩, fun _ => ⟨0, 0, 1⟩, 0, 0, 0, 0⟩

/-- C3: closest-hit resolution selects the minimum non-negative intersection
distance, in insertion order a later shape replaces the current best only at a
strictly smaller distance (every shape earlier than the winner misses or lies
strictly farther); in particular two shapes tied at a non-negative distance
yield the earlier-inserted shape, and raytrace then returns a color computed
from that shape. -/
theorem closestHit_min_earliest :
    (∀ (scene : List shape) (o dir : vec) (s : shape) (t : ℝ),
      closestHit scene o dir = some (s, t) →
      0 ≤ t ∧
      (∃ i, ∃ hi : i < scene.length,
        scene.get ⟨i, hi⟩ = s ∧ s.intersection o dir = t ∧
        ∀ j, ∀ hj : j < scene.length, j < i →
          (scene.get ⟨j, hj⟩).intersection o dir < 0 ∨
            t < (scene.get ⟨j, hj⟩).intersection o dir) ∧
      ∀ u ∈ scene, 0 ≤ u.intersection o dir → t ≤ u.intersection o dir) ∧
    (∀ (o dir : vec) (s1 s2 : shape),
      0 ≤ s1.intersection o dir →
      s1.intersection o dir = s2.intersection o dir →
      closestHit [s1, s2] o dir = some (s1, s1.intersection o dir)) ∧
    (∀ (lights : List vec) (o d0 : vec) (s1 s2 : shape),
      0 ≤ s1.intersection o d0.normalized →
      s1.intersection o d0.normalized = s2.intersection o d0.normalized →
      raytrace [s1, s2] lights o d0 MAX_REFLECTIONS =
        s1.get_color (o + d0.normalized *
          (s1.intersection o d0.normalized - EPSILON)) * AMBIENT) := by
  refine ⟨closestHit_min, closestHit_pair_tie, ?_⟩
  intro lights o d0 s1 s2 h1 heq
  exact raytrace_base_of_bound [s1, s2] lights o d0 MAX_REFLECTIONS s1
    (s1.intersection o d0.normalized) (le_refl _)
    (closestHit_pair_tie o d0.normalized s1 s2 h1 heq)

/-- Witness for C3: two shapes tied at distance 1; the color of the earlier
one is returned. -/
theorem closestHit_min_earliest_witness :
    raytrace [shW, shW2] [] 0 ⟨0, 0, 1⟩ MAX_REFLECTIONS =
      shW.get_color (0 + (⟨0, 0, 1⟩ : vec).normalized *
        (shW.intersection 0 (⟨0, 0, 1⟩ : vec).normalized - EPSILON)) * AMBIENT :=
  closestHit_min_earliest.2.2 [] 0 ⟨0, 0, 1⟩ shW shW2 (by norm_num [shW]) rfl

/-- Rows per worker: height / workers with truncating integer division
(per_thread, main.cc line 99), generalized over the height and worker count. -/
def per_thread (height workers : ℕ) : ℕ := height / workers

/-- First row of band i (starting_point, main.cc line 101). -/
def bandStart (height workers i : ℕ) : ℕ := i * per_thread height workers

/-- One past the last row of band i (args[i].end, main.cc line 103). -/
def bandEnd (height workers i : ℕ) : ℕ :=
  bandStart height workers i + per_thread height workers

/-- Counterexample to C2 as stated: with height 5 and 2 workers (both at
least 1) row 4 lies in no band — truncating division drops the remainder
rows. -/
theorem bands_counterexample :
    1 ≤ 5 ∧ 1 ≤ 2 ∧ 4 < 5 ∧
    ¬ ∃ i, i < 2 ∧ bandStart 5 2 i ≤ 4 ∧ 4 < bandEnd 5 2 i := by decide

/-- C2 amended: whenever the worker count divides the height (as with the
program's HEIGHT = 480 and NUM_THREADS = 4), the bands
[i*(height/workers), (i+1)*(height/workers)) for i < workers cover every row
of [0, height) exactly once, with no overlap and no gap. -/
theorem bands_partition (height workers : ℕ)
    (hh : 1 ≤ height) (hw : 1 ≤ workers) (hdvd : workers ∣ height) :
    ∀ y, y < height ↔
      ∃! i, i < workers ∧ bandStart height workers i ≤ y ∧
        y < bandEnd height workers i := by
  intro y
  obtain ⟨p, hp⟩ := hdvd
  have hp1 : 1 ≤ p := by
    rcases Nat.eq_zero_or_pos p with h0 | h1
    · subst h0; omega
    · exact h1
  have hpt : per_thread height workers = p := by
    rw [per_thread, hp, Nat.mul_div_cancel_left p (by omega : 0 < workers)]
  simp only [bandStart, bandEnd, hpt]
  constructor
  · intro hy
    refine ⟨y / p, ⟨?_, ?_, ?_⟩, ?_⟩
    · refine (Nat.div_lt_iff_lt_mul (by omega)).mpr ?_
      rw [← hp]
      exact hy
    · exact Nat.div_mul_le_self y p
    · have hdm := Nat.div_add_mod y p
      have hm : y % p < p := Nat.mod_lt y (by omega)
      calc y = p * (y / p) + y % p := hdm.symm
        _ < p * (y / p) + p := Nat.add_lt_add_left hm _
        _ = y / p * p + p := by rw [mul_comm]
    · intro j hj
      exact (Nat.div_eq_of_lt_le hj.2.1
        (by rw [Nat.succ_mul]; exact hj.2.2)).symm
  · rintro ⟨i, ⟨hiw, his, hie⟩, hu⟩
    calc y < i * p + p := hie
      _ = (i + 1) * p := by ring
      _ ≤ workers * p := Nat.mul_le_mul_right p hiw
      _ = height := hp.symm

/-- Witness for the amended C2 at the program's constants, row 7. -/
theorem bands_partition_witness :
    (7 : ℕ) < 480 ↔
      ∃! i, i < 4 ∧ bandStart 480 4 i ≤ 7 ∧ 7 < bandEnd 480 4 i :=
  bands_partition 480 4 (by decide) (by decide) (by decide) 7

/-- Modelled from the spec: the camera interface of the missing viewport
header — an origin and a map from (possibly fractional) pixel coordinates to a
ray direction (spec section 4.4). -/
structure viewportM where
  origin : vec
  dir : ℝ → ℝ → vec

/-- Modelled from the spec: the output color buffer as a map from pixel
coordinates to colors; set(x, y, color) updates exactly one cell (spec
section 6). -/
def Bitmap := ℕ → ℕ → vec

/-- bitmap::set - write one cell. -/
def bmpSet (b : Bitmap) (x y : ℕ) (c : vec) : Bitmap :=
  fun x2 y2 => if x2 = x ∧ y2 = y then c else b x2 y2

/-- One pixel of a worker's loop (thread_fn, main.cc lines 276-299): sum the
raytraced colors over the OVERSAMPLE x OVERSAMPLE subpixel grid — each subray
offset to the center of its subcell, origin and direction rotated by the frame
angle, traced at depth 0 — then divide by OVERSAMPLE^2. -/
def pixelColor (V : viewportM) (scene : List shape) (lights : List vec)
    (yrot : ℝ) (x y : ℕ) : vec :=
  ((List.range OVERSAMPLE).foldl (fun acc ys =>
    (List.range OVERSAMPLE).foldl (fun acc2 xs =>
      acc2 + raytrace scene lights (V.origin.yrotated yrot)
        ((V.dir ((x : ℝ) + ((xs : ℝ) + 0.5) / (OVERSAMPLE : ℝ))
            ((y : ℝ) + ((ys : ℝ) + 0.5) / (OVERSAMPLE : ℝ))).yrotated yrot) 0)
      acc) 0) / ((OVERSAMPLE * OVERSAMPLE : ℕ) : ℝ)

/-- One row of a worker's loop: write every pixel x in [0, WIDTH) of row y. -/
def renderRow (V : viewportM) (scene : List shape) (lights : List vec)
    (yrot : ℝ) (y : ℕ) (b : Bitmap) : Bitmap :=
  (List.range WIDTH).foldl
    (fun b2 x => bmpSet b2 x y (pixelColor V scene lights yrot x y)) b

/-- A worker (thread_fn, main.cc lines 266-304): render every row y of its
argument range [start, stop). -/
def thread_fn (V : viewportM) (scene : List shape) (lights : List vec)
    (start stop : ℕ) (yrot : ℝ) (b : Bitmap) : Bitmap :=
  (List.range (stop - start)).foldl
    (fun b2 k => renderRow V scene lights yrot (start + k) b2) b

theorem foldl_bmpSet_preserve (f : ℕ → vec) (r : ℕ) :
    ∀ (xs : List ℕ) (b : Bitmap) (x y : ℕ), y ≠ r ∨ x ∉ xs →
      (xs.foldl (fun b2 x2 => bmpSet b2 x2 r (f x2)) b) x y = b x y := by
  intro xs
  induction xs with
  | nil => intro b x y h; rfl
  | cons a l ih =>
    intro b x y h
    simp only [List.foldl_cons]
    have hhead : bmpSet b a r (f a) x y = b x y := by
      unfold bmpSet
      rw [if_neg]
      intro hc
      rcases h with h1 | h2
      · exact h1 hc.2
      · exact h2 (hc.1 ▸ List.mem_cons_self a l)
    have htl : y ≠ r ∨ x ∉ l := by
      rcases h with h1 | h2
      · exact Or.inl h1
      · exact Or.inr fun hm => h2 (List.mem_cons_of_mem a hm)
    rw [ih (bmpSet b a r (f a)) x y htl, hhead]

theorem renderRow_preserve (V : viewportM) (scene : List shape)
    (lights : List vec) (yrot : ℝ) (r : ℕ) (b : Bitmap) (x y : ℕ)
    (h : y ≠ r ∨ WIDTH ≤ x) :
    renderRow V scene lights yrot r b x y = b x y := by
  unfold renderRow
  apply foldl_bmpSet_preserve
  rcases h with h1 | h2
  · exact Or.inl h1
  · refine Or.inr fun hm => ?_
    have := List.mem_range.mp hm
    omega

theorem foldl_renderRow_preserve (V : viewportM) (scene : List shape)
    (lights : List vec) (yrot : ℝ) (start : ℕ) :
    ∀ (ks : List ℕ) (b : Bitmap) (x y : ℕ),
      ((∀ k ∈ ks, y ≠ start + k) ∨ WIDTH ≤ x) →
      (ks.foldl (fun b2 k => renderRow V scene lights yrot (start + k) b2) b) x y =
        b x y := by
  intro ks
  induction ks with
  | nil => intro b x y h; rfl
  | cons a l ih =>
    intro b x y h
    simp only [List.foldl_cons]
    have htl : (∀ k ∈ l, y ≠ start + k) ∨ WIDTH ≤ x := by
      rcases h with h1 | h2
      · exact Or.inl fun k hk => h1 k (List.mem_cons_of_mem a hk)
      · exact Or.inr h2
    rw [ih (renderRow V scene lights yrot (start + a) b) x y htl]
    apply renderRow_preserve
    rcases h with h1 | h2
    · exact Or.inl (h1 a (List.mem_cons_self a l))
    · exact Or.inr h2

/-- C9: a worker writes only into its own row band — every cell with a row
outside [start, stop) or a column at or beyond WIDTH is left unchanged — and
the row bands handed to distinct workers by the frame loop (HEIGHT and
NUM_THREADS of main.cc) are pairwise disjoint, so no cell is written by two
workers. -/
theorem thread_writes_only_band :
    (∀ (V : viewportM) (scene : List shape) (lights : List vec)
        (start stop : ℕ) (yrot : ℝ) (b : Bitmap) (x y : ℕ),
      y < start ∨ stop ≤ y ∨ WIDTH ≤ x →
      thread_fn V scene lights start stop yrot b x y = b x y) ∧
    (∀ i j y : ℕ, i < NUM_THREADS → j < NUM_THREADS → i ≠ j →
      ¬ (bandStart HEIGHT NUM_THREADS i ≤ y ∧ y < bandEnd HEIGHT NUM_THREADS i ∧
         bandStart HEIGHT NUM_THREADS j ≤ y ∧ y < bandEnd HEIGHT NUM_THREADS j)) := by
  constructor
  · intro V scene lights start stop yrot b x y h
    unfold thread_fn
    apply foldl_renderRow_preserve
    rcases h with h1 | h2 | h3
    · exact Or.inl fun k hk => by omega
    · refine Or.inl fun k hk => ?_
      have := List.mem_range.mp hk
      omega
    · exact Or.inr h3
  · intro i j y hi hj hij
    simp only [bandStart, bandEnd, per_thread, HEIGHT, NUM_THREADS] at *
    omega

/-- Witness for C9: a worker for rows [0, 120) leaves cell (0, 200)
unchanged. -/
theorem thread_writes_only_band_witness :
    thread_fn ⟨0, fun _ _ => 0⟩ [] [] 0 120 0 (fun _ _ => 0) 0 200 =
      (fun _ _ => (0 : vec) : Bitmap) 0 200 :=
  thread_writes_only_band.1 ⟨0, fun _ _ => 0⟩ [] [] 0 120 0 (fun _ _ => 0) 0 200
    (Or.inr (Or.inl (by decide)))

/-- C8: rendering is fully deterministic — the shading kernel, the per-pixel
oversampling loop and a whole worker are pure functions of the scene, lights,
camera, rotation angle and pixel coordinates, so two runs on the same inputs
produce identical colors; no randomness occurs anywhere in the model. -/
theorem rendering_deterministic :
    ∀ (V : viewportM) (scene : List shape) (lights : List vec) (yrot : ℝ)
      (x y start stop : ℕ) (b : Bitmap) (o d : vec) (r : ℕ),
      raytrace scene lights o d r = raytrace scene lights o d r ∧
      pixelColor V scene lights yrot x y = pixelColor V scene lights yrot x y ∧
      thread_fn V scene lights start stop yrot b =
        thread_fn V scene lights start stop yrot b :=
  fun _ _ _ _ _ _ _ _ _ _ _ _ => ⟨rfl, rfl, rfl⟩

/-- Witness for C7: the empty scene. -/
theorem raytrace_miss_ambient_witness :
    raytrace [] [] 0 ⟨0, 0, 1⟩ 0 = ⟨AMBIENT, AMBIENT, AMBIENT⟩ :=
  raytrace_miss_ambient [] [] 0 ⟨0, 0, 1⟩ 0
    (fun s hs => absurd hs (List.not_mem_nil s))

end Raytracer
